import Mathlib

/-!
Verification development for the hawk-tui repository.

Text is modelled as `List Char` (Python `str`), and the Python string
methods used by the source (`startswith`, `strip`, `replace`, `split`,
`join`) are embedded as executable functions over `List Char`.
Filesystem paths are modelled as their string representation
(`pathlib.Path` construction is treated as the identity on the string),
and the user's home directory (`Path.home()`) is an explicit parameter.
-/

/-- Python whitespace characters stripped by `str.strip()` (ASCII subset). -/
def isPySpace (c : Char) : Bool :=
  c = ' ' || c = '\t' || c = '\n' || c = '\r' || c = '\x0b' || c = '\x0c'

/-- Embedding of Python `str.strip()`: drop leading and trailing whitespace. -/
def pyStrip (s : List Char) : List Char :=
  ((s.dropWhile isPySpace).reverse.dropWhile isPySpace).reverse

/-- Embedding of Python `content.split("\n")`: split at every newline;
the empty string yields `[""]`, matching Python. -/
def splitLines : List Char → List (List Char)
  | [] => [[]]
  | c :: rest =>
    if c = '\n' then [] :: splitLines rest
    else
      match splitLines rest with
      | t :: ts => (c :: t) :: ts
      | [] => [[c]]

/-- Embedding of Python `line.replace("Repo:", "")`: remove every
(non-overlapping, left-to-right) occurrence of the literal `Repo:`. -/
def removeRepoTok : List Char → List Char
  | 'R' :: 'e' :: 'p' :: 'o' :: ':' :: rest => removeRepoTok rest
  | c :: rest => c :: removeRepoTok rest
  | [] => []

/-- Embedding of the `~` expansion in `parse_repo_path`
(`str(Path.home()) + path_str[1:]` when the string starts with `~`). -/
def expandHome (home : List Char) (p : List Char) : List Char :=
  match p with
  | '~' :: rest => home ++ rest
  | _ => p

/-- The loop body of `parse_repo_path` (src/hawk/utils.py, lines 38-45):
scan lines in order, and on the first line that starts with `Repo:`
return that line with all `Repo:` occurrences removed, stripped, and
`~`-expanded. -/
def parse_repo_lines (home : List Char) : List (List Char) → Option (List Char)
  | [] => none
  | l :: ls =>
    if "Repo:".data.isPrefixOf l then
      some (expandHome home (pyStrip (removeRepoTok l)))
    else parse_repo_lines home ls

/-- Embedding of `parse_repo_path` (src/hawk/utils.py, lines 38-45). -/
def parse_repo_path (home content : List Char) : Option (List Char) :=
  parse_repo_lines home (splitLines content)

/-- Modelled from the amended C3 reading: the first line starting with
`Repo:` determines the result, the returned path being that line with
all occurrences of `Repo:` removed, then stripped and `~`-expanded. -/
def repoPathSpec (home content : List Char) : Option (List Char) :=
  ((splitLines content).find? (fun l => "Repo:".data.isPrefixOf l)).map
    (fun l => expandHome home (pyStrip (removeRepoTok l)))

/-! ### Client store (src/hawk/db.py)

The TOML file holds a flat list of client records; `_load_clients` /
`_save_clients` round-trip that list, so the store is modelled as a
`List Client` passed explicitly, and every mutating operation returns the
new list.  `date.today()` is an ambient input of `payment_status`, passed
as an explicit proleptic-Gregorian ordinal (`Nat`), the same day numbering
as Python's `date.toordinal()`. -/

/-- Gregorian leap-year rule, as used by Python's `datetime.date`. -/
def isLeap (y : Nat) : Bool :=
  y % 4 == 0 && (y % 100 != 0 || y % 400 == 0)

/-- Number of days in month `m` of year `y`. -/
def daysInMonth (y m : Nat) : Nat :=
  if m = 2 then (if isLeap y then 29 else 28)
  else if m = 4 || m = 6 || m = 9 || m = 11 then 30
  else 31

/-- Days in year `y` before the start of month `m`. -/
def daysBeforeMonth (y m : Nat) : Nat :=
  (List.range (m - 1)).foldl (fun acc i => acc + daysInMonth y (i + 1)) 0

/-- Proleptic Gregorian ordinal of a date, as `date.toordinal()`:
day 1 is January 1 of year 1. -/
def toOrdinal (y m d : Nat) : Nat :=
  365 * (y - 1) + (y - 1) / 4 - (y - 1) / 100 + (y - 1) / 400
    + daysBeforeMonth y m + d

/-- Embedding of `date.fromisoformat` on the standard `YYYY-MM-DD` form:
`none` models the `ValueError` raised on any malformed or invalid date. -/
def parseDate (s : List Char) : Option (Nat × Nat × Nat) :=
  match s with
  | [y1, y2, y3, y4, '-', m1, m2, '-', d1, d2] =>
    if y1.isDigit && y2.isDigit && y3.isDigit && y4.isDigit
        && m1.isDigit && m2.isDigit && d1.isDigit && d2.isDigit then
      let y := (y1.toNat - 48) * 1000 + (y2.toNat - 48) * 100
        + (y3.toNat - 48) * 10 + (y4.toNat - 48)
      let m := (m1.toNat - 48) * 10 + (m2.toNat - 48)
      let d := (d1.toNat - 48) * 10 + (d2.toNat - 48)
      if 1 ≤ y && 1 ≤ m && m ≤ 12 && 1 ≤ d && d ≤ daysInMonth y m then
        some (y, m, d)
      else none
    else none
  | _ => none

/-- The `Client` dataclass (src/hawk/db.py, lines 18-31), with the
dataclass field defaults. -/
structure Client where
  id : String
  name : String
  company : String := ""
  email : String := ""
  phone : String := ""
  address : String := ""
  notes : String := ""
  billing_cycle : String := "annual"
  amount : Int := 0
  currency : String := "CAD"
  next_payment : String := ""
  projects : List String := []
  deriving DecidableEq

/-- Embedding of `Client.payment_status` (src/hawk/db.py, lines 33-48). -/
def Client.payment_status (c : Client) (today : Nat) : String :=
  if c.next_payment = "" then "none"
  else
    match parseDate c.next_payment.data with
    | none => "none"
    | some (y, m, d) =>
      if (toOrdinal y m d : Int) - (today : Int) < 0 then "overdue"
      else if (toOrdinal y m d : Int) - (today : Int) ≤ 14 then "due_soon"
      else "paid"

/-- Embedding of `get_client` (src/hawk/db.py, lines 107-112): first
record whose id matches, else `None`. -/
def get_client (client_id : String) (store : List Client) : Option Client :=
  store.find? (fun c => c.id == client_id)

/-- Embedding of `create_client` (src/hawk/db.py, lines 115-120): append
unconditionally and return the client's id. -/
def create_client (c : Client) (store : List Client) : List Client × String :=
  (store ++ [c], c.id)

/-- Embedding of `delete_client` (src/hawk/db.py, lines 133-136). -/
def delete_client (client_id : String) (store : List Client) : List Client :=
  store.filter (fun c => c.id != client_id)

/-- The removal step shared by the linking loops: if the project is in the
record's list, remove its first occurrence (Python `list.remove`). -/
def removeProj (p : String) (c : Client) : Client :=
  if p ∈ c.projects then { c with projects := c.projects.erase p } else c

/-- The loop body of `link_project_to_client` (src/hawk/db.py, lines
149-162) for one record: remove the project, then if the id matches the
target append the project when not already present. -/
def linkStep (p cid : String) (c : Client) : Client :=
  if (removeProj p c).id = cid then
    if p ∈ (removeProj p c).projects then removeProj p c
    else { removeProj p c with projects := (removeProj p c).projects ++ [p] }
  else removeProj p c

/-- Embedding of `link_project_to_client` (src/hawk/db.py, lines 149-162). -/
def link_project_to_client (p cid : String) (store : List Client) : List Client :=
  store.map (linkStep p cid)

/-- Embedding of `unlink_project_from_client` (src/hawk/db.py, lines 165-171). -/
def unlink_project_from_client (p : String) (store : List Client) : List Client :=
  store.map (removeProj p)

/-- Number of stored clients whose `projects` list contains `q`; the
spec's invariant is `holdersCount q store ≤ 1` for every `q`. -/
def holdersCount (q : String) (store : List Client) : Nat :=
  store.countP (fun c => decide (q ∈ c.projects))

/-- Embedding of `get_upcoming_payments` (src/hawk/db.py, lines 180-187):
the `days` parameter is declared (default 14) but never read by the body. -/
def get_upcoming_payments (days : Int) (today : Nat) (store : List Client) :
    List Client :=
  store.filter (fun c =>
    c.payment_status today == "due_soon" || c.payment_status today == "overdue")

/-- Concrete client: id `acme`, earlier record. -/
def clientOld : Client := { id := "acme", name := "Old" }

/-- Concrete client: same id `acme`, different fields. -/
def clientNew : Client := { id := "acme", name := "New" }

/-- Concrete two-client store for the linking witnesses. -/
def c2store : List Client :=
  [{ id := "A", name := "A", projects := ["q"] }, { id := "B", name := "B" }]

/-- Concrete one-client store holding project `p`. -/
def c9store : List Client := [{ id := "A", name := "A", projects := ["p"] }]

/-! ### Widgets logic (src/hawk/widgets.py)

The task counter, section extractor and alerts checker.  The filesystem
facts consulted by `AlertsPanel._check_project` (file existence, session
age, repo-path existence, marker-file state) are carried by a
`ProjectState` record; the alert strings themselves are built exactly as
in the source. -/

/-- Embedding of Python `alert.replace("missing ", "")`: remove every
(non-overlapping, left-to-right) occurrence of the literal `missing `. -/
def stripMissingTok : List Char → List Char
  | 'm' :: 'i' :: 's' :: 's' :: 'i' :: 'n' :: 'g' :: ' ' :: rest => stripMissingTok rest
  | c :: rest => c :: stripMissingTok rest
  | [] => []

/-- Embedding of Python `s.split(", ")`: split at every non-overlapping
occurrence of `, `, scanning left to right. -/
def splitCommaSpace : List Char → List (List Char)
  | ',' :: ' ' :: rest => [] :: splitCommaSpace rest
  | c :: rest =>
    match splitCommaSpace rest with
    | t :: ts => (c :: t) :: ts
    | [] => [[c]]
  | [] => [[]]

/-- Scan counting the non-overlapping occurrences of a 3-character token,
left to right, advancing past each match: the semantics of
`len(re.findall(...))` for the task-box patterns. -/
def findallCount3 (p : Char → Char → Char → Bool) : List Char → Nat
  | a :: b :: c :: rest =>
    if p a b c then 1 + findallCount3 p rest
    else findallCount3 p (b :: c :: rest)
  | _ => 0
termination_by s => s.length
decreasing_by all_goals simp <;> omega

/-- Number of positions at which the 3-character token matches. -/
def posCount3 (p : Char → Char → Char → Bool) (s : List Char) : Nat :=
  match s with
  | [] => 0
  | a :: tail =>
    (match tail with
     | b :: c :: _ => if p a b c then 1 else 0
     | _ => 0) + posCount3 p tail

/-- The pattern `\[x\]` with `re.IGNORECASE`: `[x]` or `[X]`. -/
def doneTok (a b c : Char) : Bool :=
  a == '[' && (b == 'x' || b == 'X') && c == ']'

/-- The case-sensitive pattern `\[ \]`. -/
def todoTok (a b c : Char) : Bool :=
  a == '[' && b == ' ' && c == ']'

/-- Embedding of the task counting in `DetailPanel.watch_project_name`
(src/hawk/widgets.py, lines 206-208): `done` matches of `\[x\]`
case-insensitively, `undone` matches of `\[ \]`, `total = done + undone`;
returns `(done, total)`. -/
def count_tasks (text : List Char) : Nat × Nat :=
  (findallCount3 doneTok text, findallCount3 doneTok text + findallCount3 todoTok text)

/-- The loop of `DetailPanel._extract_section` (src/hawk/widgets.py,
lines 243-252): `inSec` is the `in_section` flag; a header-prefixed line
sets it, a `## ` line inside the section stops the loop, a non-blank line
inside the section is collected. -/
def extract_section_go (header : List Char) : List (List Char) → Bool → List (List Char)
  | [], _ => []
  | l :: ls, inSec =>
    if header.isPrefixOf l then extract_section_go header ls true
    else if inSec && "## ".data.isPrefixOf l then []
    else if inSec && !(pyStrip l).isEmpty then l :: extract_section_go header ls inSec
    else extract_section_go header ls inSec

/-- Embedding of `DetailPanel._extract_section` (src/hawk/widgets.py,
lines 243-252): collected lines truncated to 10 and newline-joined. -/
def extract_section (content header : List Char) : List Char :=
  List.intercalate "\n".data ((extract_section_go header (splitLines content) false).take 10)

/-- Modelled from the amended C7 reading: after the first header-prefixed
line, take lines while they are header-prefixed or not `## `-prefixed,
keep the non-blank non-header ones, truncate to 10, newline-join. -/
def extractSectionSpec (content header : List Char) : List Char :=
  match (splitLines content).dropWhile (fun l => !header.isPrefixOf l) with
  | [] => []
  | _ :: rest =>
    List.intercalate "\n".data
      (((rest.takeWhile (fun l => header.isPrefixOf l || !"## ".data.isPrefixOf l)).filter
          (fun l => !header.isPrefixOf l && !(pyStrip l).isEmpty)).take 10)

/-- The filesystem facts about one project consulted by
`AlertsPanel._check_project`: `project_md` is the file's content when it
exists, `session_days_old` the age of `session.md` when it exists, and
the remaining flags abstract the existence/symlink checks made inside the
linked repository. -/
structure ProjectState where
  name : List Char
  project_md : Option (List Char)
  session_days_old : Option Int
  gotchas_exists : Bool
  repo_exists : Bool
  claude_exists : Bool
  claude_is_symlink : Bool
  claude_target_ok : Bool
  agents_exists : Bool
  deriving DecidableEq

/-- `AlertsPanel.STALE_DAYS` (src/hawk/widgets.py, line 281). -/
def STALE_DAYS : Int := 7

/-- The `missing` list built by the first check of `_check_project`:
required files in the fixed order `project.md`, `session.md`,
`gotchas.md`. -/
def missingList (st : ProjectState) : List (List Char) :=
  (if st.project_md.isNone then ["project.md".data] else [])
    ++ (if st.session_days_old.isNone then ["session.md".data] else [])
    ++ (if st.gotchas_exists then [] else ["gotchas.md".data])

/-- The staleness check of `_check_project` (src/hawk/widgets.py,
lines 313-318). -/
def staleAlerts (st : ProjectState) : List (List Char) :=
  match st.session_days_old with
  | some d =>
    if d > STALE_DAYS then
      ["session.md stale (".data ++ (toString d).data ++ "d)".data]
    else []
  | none => []

/-- The repo-related checks of `_check_project` (src/hawk/widgets.py,
lines 320-340), evaluated only when `project.md` exists. -/
def repoAlerts (home : List Char) (st : ProjectState) : List (List Char) :=
  match st.project_md with
  | none => []
  | some content =>
    match parse_repo_path home content with
    | none => ["no Repo: path in project.md".data]
    | some _ =>
      if !st.repo_exists then ["repo path not found".data]
      else
        (if !st.claude_exists then ["CLAUDE.md missing in repo".data]
         else if st.claude_is_symlink && !st.claude_target_ok then
           ["CLAUDE.md symlink incorrect".data]
         else [])
          ++ (if !st.agents_exists then ["AGENTS.md missing in repo".data] else [])

/-- Embedding of `AlertsPanel._check_project` (src/hawk/widgets.py,
lines 302-342): missing-file alert first, then staleness, then the
repo-related alerts. -/
def check_project (home : List Char) (st : ProjectState) : List (List Char) :=
  (if missingList st = [] then []
   else ["missing ".data ++ List.intercalate ", ".data (missingList st)])
    ++ staleAlerts st ++ repoAlerts home st

/-- The full (uncapped) alert list accumulated by
`AlertsPanel.check_alerts` (src/hawk/widgets.py, lines 286-300), each
alert formatted as `⚠ {name}: {alert}`. -/
def check_alerts_full (home : List Char) (ps : List ProjectState) : List (List Char) :=
  (ps.map (fun st =>
    (check_project home st).map (fun a => "⚠ ".data ++ st.name ++ ": ".data ++ a))).flatten

/-- Embedding of the return value of `AlertsPanel.check_alerts`
(src/hawk/widgets.py, lines 286-300): the missing-files map, one entry
per alert starting with `missing`, the entry being the alert with
`missing ` removed and split on `, `. -/
def check_alerts (home : List Char) (ps : List ProjectState) :
    List (List Char × List (List Char)) :=
  (ps.map (fun st =>
    (check_project home st).filterMap (fun a =>
      if "missing".data.isPrefixOf a then
        some (st.name, splitCommaSpace (stripMissingTok a))
      else none))).flatten

/-- Embedding of the text written to the alerts widget by `check_alerts`:
the first 5 alerts newline-joined, or the healthy message. -/
def check_alerts_display (home : List Char) (ps : List ProjectState) : List Char :=
  if check_alerts_full home ps = [] then "✓ All projects healthy".data
  else List.intercalate "\n".data ((check_alerts_full home ps).take 5)

/-- Concrete project state: `project.md` present (with a repo line whose
path does not exist), `session.md` and `gotchas.md` missing. -/
def c5state : ProjectState :=
  { name := "proj".data, project_md := some "Repo: /r".data,
    session_days_old := none, gotchas_exists := false, repo_exists := false,
    claude_exists := false, claude_is_symlink := false,
    claude_target_ok := false, agents_exists := false }

/-- Concrete project state: `project.md` present but empty (no `Repo:`
line), `session.md` and `gotchas.md` missing. -/
def c5nopath : ProjectState :=
  { name := "proj".data, project_md := some [],
    session_days_old := none, gotchas_exists := false, repo_exists := false,
    claude_exists := false, claude_is_symlink := false,
    claude_target_ok := false, agents_exists := false }

theorem parse_repo_lines_eq_find (home : List Char) (ls : List (List Char)) :
    parse_repo_lines home ls
      = (ls.find? (fun l => "Repo:".data.isPrefixOf l)).map
          (fun l => expandHome home (pyStrip (removeRepoTok l))) := by
  induction ls with
  | nil => rfl
  | cons l ls ih =>
    by_cases h : "Repo:".data.isPrefixOf l
    · simp [parse_repo_lines, List.find?_cons_of_pos _ h, h]
    · have hb : ("Repo:".data.isPrefixOf l) = false := Bool.eq_false_iff.mpr h
      rw [List.find?_cons_of_neg _ (by simp [hb])]
      simp only [parse_repo_lines, hb, Bool.false_eq_true, if_false]
      exact ih

/-- C3 (amended): `extractRepoPath` returns `None` when no line begins with
`Repo:`; otherwise the result is determined by the first such line, the
path being that line with all occurrences of `Repo:` removed (not just
the leading prefix), trimmed, with a leading `~` replaced by the home
directory; later `Repo:` lines have no effect. -/
theorem parse_repo_path_spec (home content : List Char) :
    parse_repo_path home content = repoPathSpec home content := by
  unfold parse_repo_path repoPathSpec
  exact parse_repo_lines_eq_find home (splitLines content)

/-- C3 counterexample: on the text `Repo: x Repo: y` the code removes
every occurrence of `Repo:` from the line, returning `x  y`, whereas the
claim ("the remainder of the first such line, trimmed") predicts
`x Repo: y`. -/
theorem parse_repo_path_counterexample :
    parse_repo_path "/home/u".data "Repo: x Repo: y".data = some "x  y".data
      ∧ "x  y".data ≠ "x Repo: y".data := by
  constructor
  · rfl
  · decide

theorem removeProj_id (p : String) (c : Client) : (removeProj p c).id = c.id := by
  unfold removeProj; split <;> rfl

theorem linkStep_of_id_ne {p cid : String} {c : Client} (h : c.id ≠ cid) :
    linkStep p cid c = removeProj p c := by
  unfold linkStep
  rw [if_neg (by rw [removeProj_id]; exact h)]

/-- C1: the claim says `create` fails with `DuplicateKey` on an existing id
and leaves the store unmodified; the code appends unconditionally and
returns the id.  Evaluated at the failing input (a store already holding
id `acme`): the record is appended, the id is returned, and the store ends
up with two records carrying the same id. -/
theorem create_client_duplicate_appends :
    create_client clientNew [clientOld] = ([clientOld, clientNew], "acme")
      ∧ ((create_client clientNew [clientOld]).1.countP
          (fun c => c.id == "acme") = 2) := by
  constructor
  · rfl
  · decide

/-- C4: `payment_status` returns `none` when `next_payment` is unset or
unparsable; otherwise, with `daysUntil` the signed difference between the
payment date's ordinal and today's, it returns `overdue` when
`daysUntil < 0`, `due_soon` when `0 ≤ daysUntil ≤ 14`, and `paid`
otherwise. -/
theorem payment_status_correct (c : Client) (today : Nat) :
    (c.next_payment = "" → c.payment_status today = "none")
    ∧ (parseDate c.next_payment.data = none → c.payment_status today = "none")
    ∧ (∀ y m d : Nat, parseDate c.next_payment.data = some (y, m, d) →
        ((toOrdinal y m d : Int) - (today : Int) < 0 →
            c.payment_status today = "overdue")
        ∧ (0 ≤ (toOrdinal y m d : Int) - (today : Int)
            ∧ (toOrdinal y m d : Int) - (today : Int) ≤ 14 →
            c.payment_status today = "due_soon")
        ∧ (14 < (toOrdinal y m d : Int) - (today : Int) →
            c.payment_status today = "paid")) := by
  by_cases h : c.next_payment = ""
  · refine ⟨fun _ => by simp [Client.payment_status, h],
      fun _ => by simp [Client.payment_status, h], ?_⟩
    intro y m d hp
    rw [h] at hp
    rw [show parseDate ("" : String).data = none from rfl] at hp
    exact Option.noConfusion hp
  · refine ⟨fun h0 => absurd h0 h, ?_, ?_⟩
    · intro hp
      simp only [Client.payment_status, if_neg h, hp]
    · intro y m d hp
      refine ⟨?_, ?_, ?_⟩
      · intro hd
        simp only [Client.payment_status, if_neg h, hp]
        rw [if_pos hd]
      · intro hd
        have h1 : ¬ ((toOrdinal y m d : Int) - (today : Int) < 0) := by omega
        have h2 : (toOrdinal y m d : Int) - (today : Int) ≤ 14 := hd.2
        simp only [Client.payment_status, if_neg h, hp]
        rw [if_neg h1, if_pos h2]
      · intro hd
        have h1 : ¬ ((toOrdinal y m d : Int) - (today : Int) < 0) := by omega
        have h2 : ¬ ((toOrdinal y m d : Int) - (today : Int) ≤ 14) := by omega
        simp only [Client.payment_status, if_neg h, hp]
        rw [if_neg h1, if_neg h2]

/-- Witness for C4 at the concrete dates of the spec's examples: with
today = 2026-10-12, a next payment of 2026-10-26 (today+14) is `due_soon`,
2026-10-27 (today+15) is `paid`, 2026-10-11 (today-1) is `overdue`, and an
unset date is `none`. -/
theorem payment_status_correct_witness :
    Client.payment_status { id := "x", name := "x", next_payment := "2026-10-26" }
        (toOrdinal 2026 10 12) = "due_soon"
    ∧ Client.payment_status { id := "x", name := "x", next_payment := "2026-10-27" }
        (toOrdinal 2026 10 12) = "paid"
    ∧ Client.payment_status { id := "x", name := "x", next_payment := "2026-10-11" }
        (toOrdinal 2026 10 12) = "overdue"
    ∧ Client.payment_status { id := "x", name := "x" }
        (toOrdinal 2026 10 12) = "none" :=
  ⟨((payment_status_correct { id := "x", name := "x", next_payment := "2026-10-26" }
      (toOrdinal 2026 10 12)).2.2 2026 10 26 (by decide)).2.1 (by decide),
   ((payment_status_correct { id := "x", name := "x", next_payment := "2026-10-27" }
      (toOrdinal 2026 10 12)).2.2 2026 10 27 (by decide)).2.2 (by decide),
   ((payment_status_correct { id := "x", name := "x", next_payment := "2026-10-11" }
      (toOrdinal 2026 10 12)).2.2 2026 10 11 (by decide)).1 (by decide),
   (payment_status_correct { id := "x", name := "x" } (toOrdinal 2026 10 12)).1 rfl⟩

/-- C8 (amended): `create(c)` followed by `get(c.id)` returns `c` in all
fields provided no stored client already has id `c.id` (with a duplicate
already present, `get` returns the earlier record); `delete(id)` followed
by `get(id)` returns `None` unconditionally. -/
theorem create_get_delete_roundtrip (store : List Client) (c : Client)
    (h : ∀ d ∈ store, d.id ≠ c.id) :
    get_client c.id (create_client c store).1 = some c
    ∧ (∀ (s : List Client) (i : String), get_client i (delete_client i s) = none) := by
  constructor
  · unfold get_client create_client
    have hnone : store.find? (fun x => x.id == c.id) = none :=
      List.find?_eq_none.mpr (fun x hx => by simpa using h x hx)
    simp [List.find?_append, hnone]
  · intro s i
    unfold get_client delete_client
    apply List.find?_eq_none.mpr
    intro a ha
    have := (List.mem_filter.mp ha).2
    simp_all

/-- Witness for C8: creating id `acme` in the empty store then getting it
returns the created record; deleting id `acme` then getting it returns
`None`. -/
theorem create_get_delete_roundtrip_witness :
    get_client "acme" (create_client clientNew []).1 = some clientNew
    ∧ get_client "acme" (delete_client "acme" [clientOld]) = none :=
  ⟨(create_get_delete_roundtrip [] clientNew (by simp)).1,
   (create_get_delete_roundtrip [] clientNew (by simp)).2 [clientOld] "acme"⟩

/-- C8 counterexample: with a record of id `acme` already stored,
`create` of a different record with the same id followed by `get acme`
returns the earlier record, not the one just created. -/
theorem create_get_shadowed_counterexample :
    get_client "acme" (create_client clientNew [clientOld]).1 = some clientOld
    ∧ some clientOld ≠ some clientNew := by
  constructor
  · rfl
  · decide

/-- C9: when no stored client has id `cid`, `link_project_to_client p cid`
has exactly the effect of `unlink_project_from_client p` — it removes `p`
from every record and adds it nowhere — and, being a total function,
signals no error. -/
theorem link_absent_client_eq_unlink (store : List Client) (p cid : String)
    (h : ∀ c ∈ store, c.id ≠ cid) :
    link_project_to_client p cid store = unlink_project_from_client p store := by
  unfold link_project_to_client unlink_project_from_client
  induction store with
  | nil => rfl
  | cons c cs ih =>
    simp only [List.map_cons]
    rw [linkStep_of_id_ne (h c (by simp))]
    rw [ih (fun x hx => h x (by simp [hx]))]

/-- Witness for C9 on a concrete store holding project `p` under client
`A`, linking to the absent id `Z`. -/
theorem link_absent_client_eq_unlink_witness :
    link_project_to_client "p" "Z" c9store = unlink_project_from_client "p" c9store :=
  link_absent_client_eq_unlink c9store "p" "Z" (by decide)

/-- C10: `get_upcoming_payments` ignores its `days` argument — any two
arguments give the same list — and returns exactly the stored clients
whose payment status is `due_soon` or `overdue`, in store order. -/
theorem get_upcoming_payments_ignores_days (d1 d2 : Int) (today : Nat)
    (store : List Client) :
    get_upcoming_payments d1 today store = get_upcoming_payments d2 today store
    ∧ get_upcoming_payments d1 today store
        = store.filter (fun c =>
            c.payment_status today == "due_soon"
              || c.payment_status today == "overdue") :=
  ⟨rfl, rfl⟩

theorem linkStep_id (p cid : String) (c : Client) : (linkStep p cid c).id = c.id := by
  unfold linkStep
  split
  · split
    · exact removeProj_id p c
    · exact removeProj_id p c
  · exact removeProj_id p c

theorem mem_removeProj_self {p : String} {c : Client} (h : c.projects.Nodup) :
    p ∉ (removeProj p c).projects := by
  by_cases hm : p ∈ c.projects
  · simp only [removeProj, if_pos hm]
    exact h.not_mem_erase
  · simp only [removeProj, if_neg hm]
    exact hm

theorem mem_removeProj_ne {q p : String} {c : Client} (hq : q ≠ p) :
    q ∈ (removeProj p c).projects ↔ q ∈ c.projects := by
  simp only [removeProj]
  split
  · exact List.mem_erase_of_ne hq
  · exact Iff.rfl

theorem removeProj_nodup {p : String} {c : Client} (h : c.projects.Nodup) :
    (removeProj p c).projects.Nodup := by
  simp only [removeProj]
  split
  · exact h.erase p
  · exact h

theorem linkStep_mem_self {p cid : String} {c : Client} (h : c.id = cid) :
    p ∈ (linkStep p cid c).projects := by
  simp only [linkStep]
  rw [if_pos (by rw [removeProj_id]; exact h)]
  split
  · assumption
  · simp

theorem linkStep_not_mem {p cid : String} {c : Client} (h : c.id ≠ cid)
    (hn : c.projects.Nodup) : p ∉ (linkStep p cid c).projects := by
  rw [linkStep_of_id_ne h]
  exact mem_removeProj_self hn

theorem linkStep_mem_ne {q p cid : String} {c : Client} (hq : q ≠ p) :
    q ∈ (linkStep p cid c).projects ↔ q ∈ c.projects := by
  simp only [linkStep]
  split
  · split
    · exact mem_removeProj_ne hq
    · show q ∈ (removeProj p c).projects ++ [p] ↔ q ∈ c.projects
      rw [List.mem_append, List.mem_singleton]
      simp only [hq, or_false]
      exact mem_removeProj_ne hq
  · exact mem_removeProj_ne hq

theorem linkStep_nodup {p cid : String} {c : Client} (h : c.projects.Nodup) :
    (linkStep p cid c).projects.Nodup := by
  simp only [linkStep]
  split
  · split
    · exact removeProj_nodup h
    · rename_i hnm
      refine List.Nodup.append (removeProj_nodup h) (List.nodup_singleton p) ?_
      intro a ha hb
      rw [List.mem_singleton] at hb
      subst hb
      exact hnm ha
  · exact removeProj_nodup h

theorem holdersCount_cons (q : String) (c : Client) (s : List Client) :
    holdersCount q (c :: s) = holdersCount q s + (if q ∈ c.projects then 1 else 0) := by
  simp [holdersCount, List.countP_cons]

theorem holdersCount_link_self (p cid : String) (store : List Client)
    (h2 : ∀ c ∈ store, c.projects.Nodup) :
    holdersCount p (link_project_to_client p cid store)
      = store.countP (fun c => decide (c.id = cid)) := by
  induction store with
  | nil => rfl
  | cons c cs ih =>
    simp only [link_project_to_client, List.map_cons]
    simp only [link_project_to_client] at ih
    rw [holdersCount_cons, ih (fun x hx => h2 x (List.mem_cons_of_mem _ hx)),
      List.countP_cons]
    by_cases hc : c.id = cid
    · rw [if_pos (linkStep_mem_self hc)]
      simp [hc]
    · rw [if_neg (linkStep_not_mem hc (h2 c (List.mem_cons_self c cs)))]
      simp [hc]

theorem holdersCount_link_ne (q p cid : String) (store : List Client) (hq : q ≠ p) :
    holdersCount q (link_project_to_client p cid store) = holdersCount q store := by
  induction store with
  | nil => rfl
  | cons c cs ih =>
    simp only [link_project_to_client, List.map_cons]
    simp only [link_project_to_client] at ih
    rw [holdersCount_cons, holdersCount_cons, ih]
    congr 1
    by_cases hmem : q ∈ c.projects
    · rw [if_pos ((linkStep_mem_ne hq).mpr hmem), if_pos hmem]
    · rw [if_neg (fun hx => hmem ((linkStep_mem_ne hq).mp hx)), if_neg hmem]

theorem countP_id_link (p cid a : String) (store : List Client) :
    (link_project_to_client p cid store).countP (fun c => decide (c.id = a))
      = store.countP (fun c => decide (c.id = a)) := by
  induction store with
  | nil => rfl
  | cons c cs ih =>
    simp only [link_project_to_client, List.map_cons]
    simp only [link_project_to_client] at ih
    rw [List.countP_cons, List.countP_cons, ih, linkStep_id]

theorem link_nodup (p cid : String) (store : List Client)
    (h2 : ∀ c ∈ store, c.projects.Nodup) :
    ∀ c ∈ link_project_to_client p cid store, c.projects.Nodup := by
  intro c hc
  simp only [link_project_to_client, List.mem_map] at hc
  obtain ⟨c0, hc0, rfl⟩ := hc
  exact linkStep_nodup (h2 c0 hc0)

theorem link_mem_iff (p cid : String) (store : List Client)
    (h2 : ∀ c ∈ store, c.projects.Nodup) :
    ∀ c ∈ link_project_to_client p cid store, (p ∈ c.projects ↔ c.id = cid) := by
  intro c hc
  simp only [link_project_to_client, List.mem_map] at hc
  obtain ⟨c0, hc0, rfl⟩ := hc
  rw [linkStep_id]
  constructor
  · intro hp
    by_contra hne
    exact linkStep_not_mem hne (h2 c0 hc0) hp
  · intro hid
    exact linkStep_mem_self hid

theorem link_exists_id (p cid : String) (store : List Client)
    (h1 : store.countP (fun c => decide (c.id = cid)) = 1) :
    ∃ c ∈ link_project_to_client p cid store, c.id = cid := by
  have hpos : 0 < store.countP (fun c => decide (c.id = cid)) := by omega
  obtain ⟨c0, hc0, hid⟩ := List.countP_pos_iff.mp hpos
  refine ⟨linkStep p cid c0, List.mem_map_of_mem _ hc0, ?_⟩
  rw [linkStep_id]
  exact of_decide_eq_true hid

/-- C2 (amended): in a store where every project name is held by at most
one client, where additionally exactly one stored client has id `a`
(resp. `b`) and no client's projects list contains duplicates, after
`linkProject(p, a)` the name `p` is in exactly the client `a`'s list and
no other, the at-most-one-holder invariant still holds for every name,
and a subsequent `linkProject(p, b)` leaves `p` in exactly client `b`'s
list. -/
theorem link_project_invariant (store : List Client) (p a b : String)
    (h0 : ∀ q, holdersCount q store ≤ 1)
    (ha : store.countP (fun c => decide (c.id = a)) = 1)
    (hb : store.countP (fun c => decide (c.id = b)) = 1)
    (h2 : ∀ c ∈ store, c.projects.Nodup) :
    (∀ c ∈ link_project_to_client p a store, (p ∈ c.projects ↔ c.id = a))
    ∧ (∃ c ∈ link_project_to_client p a store, c.id = a)
    ∧ (∀ q, holdersCount q (link_project_to_client p a store) ≤ 1)
    ∧ (∀ c ∈ link_project_to_client p b (link_project_to_client p a store),
        (p ∈ c.projects ↔ c.id = b))
    ∧ (∃ c ∈ link_project_to_client p b (link_project_to_client p a store),
        c.id = b) := by
  refine ⟨link_mem_iff p a store h2, link_exists_id p a store ha, ?_, ?_, ?_⟩
  · intro q
    by_cases hq : q = p
    · subst hq
      rw [holdersCount_link_self q a store h2, ha]
    · rw [holdersCount_link_ne q p a store hq]
      exact h0 q
  · exact link_mem_iff p b _ (link_nodup p a store h2)
  · refine link_exists_id p b _ ?_
    rw [countP_id_link]
    exact hb

/-- Witness for C2 applying the invariant theorem to the concrete store
`c2store`: after linking `p` to `A` and then to `B`, the record of id `B`
holds `p`. -/
theorem link_project_invariant_witness :
    "p" ∈ ({ id := "B", name := "B", projects := ["p"] } : Client).projects :=
  (((link_project_invariant c2store "p" "A" "B"
        (by
          intro q
          simp only [c2store, holdersCount, List.countP_cons, List.countP_nil]
          split <;> split <;> simp_all)
        (by decide) (by decide) (by decide)).2.2.2.1
      { id := "B", name := "B", projects := ["p"] } (by decide)).mpr rfl)

/-- C2 counterexample: the empty store vacuously satisfies the claim's
hypothesis (every project name is in at most one client's list), yet
after `linkProject("p", "clientA")` the store is still empty and the
name `p` is held by zero clients, not "exactly the client clientA", as
the claim states for every store and cid. -/
theorem link_project_counterexample :
    link_project_to_client "p" "clientA" ([] : List Client) = []
    ∧ holdersCount "p" (link_project_to_client "p" "clientA" ([] : List Client)) = 0 := by
  constructor
  · rfl
  · rfl

theorem findallCount3_eq_posCount3 (p : Char → Char → Char → Bool)
    (hov : ∀ a b c, p a b c = true →
      (∀ x, p b c x = false) ∧ (∀ x y, p c x y = false)) :
    ∀ s : List Char, findallCount3 p s = posCount3 p s := by
  have main : ∀ n (s : List Char), s.length ≤ n →
      findallCount3 p s = posCount3 p s := by
    intro n
    induction n with
    | zero =>
      intro s hs
      have hnil : s = [] := List.eq_nil_of_length_eq_zero (Nat.le_zero.mp hs)
      subst hnil
      simp [findallCount3, posCount3]
    | succ n ih =>
      intro s hs
      match s with
      | [] => simp [findallCount3, posCount3]
      | [a] => simp [findallCount3, posCount3]
      | [a, b] => simp [findallCount3, posCount3]
      | a :: b :: c :: rest =>
        by_cases hp : p a b c = true
        · obtain ⟨h1, h2⟩ := hov a b c hp
          have e1 : findallCount3 p (a :: b :: c :: rest)
              = 1 + findallCount3 p rest := by
            simp [findallCount3, hp]
          have e2 : posCount3 p (a :: b :: c :: rest)
              = 1 + posCount3 p rest := by
            cases rest with
            | nil => simp [posCount3, hp]
            | cons x xs =>
              cases xs with
              | nil => simp [posCount3, hp, h1 x]
              | cons y ys => simp [posCount3, hp, h1 x, h2 x y]
          rw [e1, e2, ih rest (by simp at hs; omega)]
        · have hp2 : p a b c = false := Bool.eq_false_iff.mpr hp
          have e1 : findallCount3 p (a :: b :: c :: rest)
              = findallCount3 p (b :: c :: rest) := by
            simp [findallCount3, hp2]
          have e2 : posCount3 p (a :: b :: c :: rest)
              = posCount3 p (b :: c :: rest) := by
            simp [posCount3, hp2]
          rw [e1, e2, ih (b :: c :: rest) (by simp at hs ⊢; omega)]
  intro s
  exact main s.length s (le_refl _)

theorem doneTok_no_overlap : ∀ a b c, doneTok a b c = true →
    (∀ x, doneTok b c x = false) ∧ (∀ x y, doneTok c x y = false) := by
  intro a b c h
  simp only [doneTok, Bool.and_eq_true, Bool.or_eq_true, beq_iff_eq] at h
  obtain ⟨⟨ha, hbc⟩, hc⟩ := h
  constructor
  · intro x
    have hb : (b == '[') = false := by
      rcases hbc with h1 | h1 <;> rw [h1] <;> rfl
    simp [doneTok, hb]
  · intro x y
    have hcf : (c == '[') = false := by rw [hc]; rfl
    simp [doneTok, hcf]

theorem todoTok_no_overlap : ∀ a b c, todoTok a b c = true →
    (∀ x, todoTok b c x = false) ∧ (∀ x y, todoTok c x y = false) := by
  intro a b c h
  simp only [todoTok, Bool.and_eq_true, beq_iff_eq] at h
  obtain ⟨⟨ha, hb⟩, hc⟩ := h
  refine ⟨fun x => ?_, fun x y => ?_⟩
  · have hbf : (b == '[') = false := by rw [hb]; rfl
    simp [todoTok, hbf]
  · have hcf : (c == '[') = false := by rw [hc]; rfl
    simp [todoTok, hcf]

/-- C6: for any text containing exactly `N` occurrences of the token
`[x]` counted case-insensitively (so including `[X]`) and `M` occurrences
of the case-sensitive token `[ ]`, the task counting returns
`done = N` and `total = N + M`. -/
theorem count_tasks_correct (text : List Char) (N M : Nat)
    (hN : posCount3 doneTok text = N) (hM : posCount3 todoTok text = M) :
    count_tasks text = (N, N + M) := by
  unfold count_tasks
  rw [findallCount3_eq_posCount3 doneTok doneTok_no_overlap text,
    findallCount3_eq_posCount3 todoTok todoTok_no_overlap text, hN, hM]

/-- Witness for C6 on a text with two done boxes (one upper-case) and one
undone box. -/
theorem count_tasks_correct_witness :
    count_tasks "- [x] a\n- [X] b\n- [ ] c".data = (2, 2 + 1) :=
  count_tasks_correct ("- [x] a\n- [X] b\n- [ ] c".data) 2 1 (by decide) (by decide)

theorem extract_section_go_true (header : List Char) (ls : List (List Char)) :
    extract_section_go header ls true
      = (ls.takeWhile (fun l => header.isPrefixOf l || !"## ".data.isPrefixOf l)).filter
          (fun l => !header.isPrefixOf l && !(pyStrip l).isEmpty) := by
  induction ls with
  | nil => rfl
  | cons l ls ih =>
    by_cases h1 : header.isPrefixOf l
    · simp [extract_section_go, h1, List.takeWhile_cons, List.filter_cons, ih]
    · by_cases h2 : "## ".data.isPrefixOf l
      · simp [extract_section_go, h1, h2, List.takeWhile_cons]
      · by_cases h3 : (pyStrip l).isEmpty
        · simp [extract_section_go, h1, h2, h3, List.takeWhile_cons,
            List.filter_cons, ih]
        · simp [extract_section_go, h1, h2, h3, List.takeWhile_cons,
            List.filter_cons, ih]

theorem extract_section_go_false (header : List Char) (ls : List (List Char)) :
    extract_section_go header ls false
      = match ls.dropWhile (fun l => !header.isPrefixOf l) with
        | [] => []
        | _ :: rest => extract_section_go header rest true := by
  induction ls with
  | nil => rfl
  | cons l ls ih =>
    by_cases h1 : header.isPrefixOf l
    · simp [extract_section_go, h1, List.dropWhile_cons]
    · simp [extract_section_go, h1, List.dropWhile_cons, ih]

/-- C7 (amended): `extractSection` returns the empty string when no line
starts with the header prefix; otherwise it scans the lines after the
first header-prefixed line, treating further header-prefixed lines as
headers (neither collected nor section-terminating), stops at the first
line that starts with `## ` but not with the prefix, collects the
non-blank lines, truncates to the first 10 and joins them with newlines. -/
theorem extract_section_spec (content header : List Char) :
    extract_section content header = extractSectionSpec content header := by
  unfold extract_section extractSectionSpec
  rw [extract_section_go_false]
  cases hl : (splitLines content).dropWhile (fun l => !header.isPrefixOf l) with
  | nil => rfl
  | cons l rest =>
    simp [extract_section_go_true]

/-- C7 counterexample: with header `## A` on a text where the first `## `
line after the section is again `## A`, the code does not stop there and
also collects `y`, returning `x\ny`, while the claim ("lines … that
precede the next line starting with `## `") predicts just `x`. -/
theorem extract_section_counterexample :
    extract_section "## A\nx\n## A\ny\n## B\nz".data "## A".data = "x\ny".data
    ∧ "x\ny".data ≠ "x".data := by
  constructor
  · rfl
  · decide

theorem pick_stale_none (st : ProjectState) (nm : List Char) :
    (staleAlerts st).filterMap (fun a =>
      if "missing".data.isPrefixOf a then
        some (nm, splitCommaSpace (stripMissingTok a))
      else none) = [] := by
  apply List.filterMap_eq_nil_iff.mpr
  intro a ha
  unfold staleAlerts at ha
  split at ha
  · split at ha
    · rw [List.mem_singleton] at ha
      subst ha
      rfl
    · simp at ha
  · simp at ha

theorem repoAlerts_mem (home : List Char) (st : ProjectState) :
    ∀ a ∈ repoAlerts home st,
      a = "no Repo: path in project.md".data ∨ a = "repo path not found".data
      ∨ a = "CLAUDE.md missing in repo".data
      ∨ a = "CLAUDE.md symlink incorrect".data
      ∨ a = "AGENTS.md missing in repo".data := by
  intro a ha
  unfold repoAlerts at ha
  split at ha
  · simp at ha
  · split at ha
    · rw [List.mem_singleton] at ha
      tauto
    · split at ha
      · rw [List.mem_singleton] at ha
        tauto
      · rw [List.mem_append] at ha
        rcases ha with ha | ha
        · split at ha
          · rw [List.mem_singleton] at ha
            tauto
          · split at ha
            · rw [List.mem_singleton] at ha
              tauto
            · simp at ha
        · split at ha
          · rw [List.mem_singleton] at ha
            tauto
          · simp at ha

theorem pick_repo_none (home : List Char) (st : ProjectState) (nm : List Char) :
    (repoAlerts home st).filterMap (fun a =>
      if "missing".data.isPrefixOf a then
        some (nm, splitCommaSpace (stripMissingTok a))
      else none) = [] := by
  apply List.filterMap_eq_nil_iff.mpr
  intro a ha
  rcases repoAlerts_mem home st a ha with h | h | h | h | h <;> subst h <;> rfl

theorem split_strip_missing (st : ProjectState) (h : missingList st ≠ []) :
    splitCommaSpace (stripMissingTok
      ("missing ".data ++ List.intercalate ", ".data (missingList st)))
      = missingList st := by
  cases hpm : st.project_md <;> cases hsd : st.session_days_old <;>
    cases hg : st.gotchas_exists <;>
    simp only [missingList, hpm, hsd, hg, Option.isNone_none, Option.isNone_some,
      if_true, if_false] at h ⊢ <;>
    first
    | exact absurd rfl h
    | decide

theorem check_project_missing_entries (home : List Char) (st : ProjectState) :
    (check_project home st).filterMap (fun a =>
        if "missing".data.isPrefixOf a then
          some (st.name, splitCommaSpace (stripMissingTok a))
        else none)
      = if missingList st = [] then [] else [(st.name, missingList st)] := by
  unfold check_project
  rw [List.filterMap_append, List.filterMap_append]
  rw [pick_stale_none st st.name, pick_repo_none home st st.name]
  by_cases hm : missingList st = []
  · simp [hm]
  · rw [if_neg hm, if_neg hm]
    have hpre : ("missing".data.isPrefixOf
        ("missing ".data ++ List.intercalate ", ".data (missingList st))) = true := rfl
    simp only [List.filterMap_cons, List.filterMap_nil, hpre, if_true,
      List.append_nil]
    rw [split_strip_missing st hm]

theorem check_alerts_eq_map (home : List Char) (ps : List ProjectState) :
    check_alerts home ps
      = ps.filterMap (fun st =>
          if missingList st = [] then none else some (st.name, missingList st)) := by
  unfold check_alerts
  induction ps with
  | nil => rfl
  | cons st ps ih =>
    simp only [List.map_cons, List.flatten_cons]
    rw [check_project_missing_entries home st, ih, List.filterMap_cons]
    by_cases hm : missingList st = []
    · simp [hm]
    · simp [hm]

/-- C5 (amended): `check()` returns the missing-file map uncapped, one
entry per project missing at least one required file, listing exactly its
missing files in the fixed order `project.md`, `session.md`,
`gotchas.md`; the displayed alert list is capped to the first 5 alerts;
and for a project missing only `session.md` and `gotchas.md` the
missing-file list is `["session.md", "gotchas.md"]` and the
`session.md`-dependent staleness check is skipped, while the
`project.md`-dependent checks still run (they are not skipped). -/
theorem check_alerts_spec (home : List Char) (ps : List ProjectState) :
    check_alerts home ps
      = ps.filterMap (fun st =>
          if missingList st = [] then none else some (st.name, missingList st))
    ∧ (check_alerts_full home ps ≠ [] →
        check_alerts_display home ps
          = List.intercalate "\n".data ((check_alerts_full home ps).take 5))
    ∧ (∀ st : ProjectState, st.session_days_old = none →
        st.gotchas_exists = false → st.project_md.isSome →
          missingList st = ["session.md".data, "gotchas.md".data]
          ∧ check_project home st
              = "missing session.md, gotchas.md".data :: repoAlerts home st) := by
  refine ⟨check_alerts_eq_map home ps, ?_, ?_⟩
  · intro h
    unfold check_alerts_display
    rw [if_neg h]
  · intro st h1 h2 h3
    have hml : missingList st = ["session.md".data, "gotchas.md".data] := by
      unfold missingList
      rw [h1, h2]
      cases hpm : st.project_md with
      | none => rw [hpm] at h3; simp at h3
      | some content => simp
    refine ⟨hml, ?_⟩
    have hst : staleAlerts st = [] := by
      unfold staleAlerts
      rw [h1]
    unfold check_project
    rw [hml, hst]
    rw [if_neg (by decide)]
    have hjoin : "missing ".data
        ++ List.intercalate ", ".data ["session.md".data, "gotchas.md".data]
        = "missing session.md, gotchas.md".data := by decide
    rw [hjoin]
    simp

/-- Witness for C5: on the concrete project `c5state` (project.md present
with a dangling repo path, session.md and gotchas.md missing) the
missing-file alert lists exactly session.md and gotchas.md, the repo
check still runs, and the displayed text is the capped join. -/
theorem check_alerts_spec_witness :
    check_project [] c5state
      = ["missing session.md, gotchas.md".data, "repo path not found".data]
    ∧ check_alerts_display [] [c5state]
        = List.intercalate "\n".data ((check_alerts_full [] [c5state]).take 5) := by
  refine ⟨?_, (check_alerts_spec [] [c5state]).2.1 (by decide)⟩
  have h := ((check_alerts_spec [] [c5state]).2.2 c5state rfl rfl rfl).2
  rw [h]
  rfl

/-- C5 counterexample: a project missing only `session.md` and
`gotchas.md` whose `project.md` is empty still gets the
`project.md`-dependent alert `no Repo: path in project.md`, refuting the
claim that all `project.md`-dependent checks are skipped in that case. -/
theorem check_alerts_counterexample :
    missingList c5nopath = ["session.md".data, "gotchas.md".data]
    ∧ "no Repo: path in project.md".data ∈ check_project [] c5nopath := by
  constructor
  · rfl
  · decide
